import Mathlib

/-!
Shallow embedding of `scripts/run_topology/run_topology.py`: a process
supervisor that seeds a restart queue from a static topology, spawns one OS
process per pending worker name, reaps child exits via a SIGCHLD handler, and
requeues the exited worker's name for restart.  Two execution strategies are
registered: `map` (pull-and-process loop over a queue) and `custom` (single
hand-off call).

Machine integers (POSIX wait statuses, pids) are modelled as `Nat`; Python
dictionaries as association lists with first-match lookup; Python exceptions
as `Except`; the asynchronous signal handler and the main loop as explicit
step functions on the supervisor state.
-/

namespace RunTopology

/-- Worker names are the string keys of the YAML topology. -/
abbrev WorkerName := String

/-- OS process identifiers. -/
abbrev Pid := Nat

/-! ### POSIX wait-status decoding

The handler `_chld` branches on `os.WIFCONTINUED`, `os.WIFSTOPPED` and
`os.WIFEXITED` applied to the 16-bit wait status returned by `os.waitpid`.
These are the Linux/glibc bit tests: `WIFEXITED s ↔ (s & 0x7f) == 0`,
`WIFSTOPPED s ↔ (s & 0xff) == 0x7f`, `WIFCONTINUED s ↔ s == 0xffff`. -/

/-- `os.WIFEXITED`: the child terminated normally (low 7 bits zero). -/
def WIFEXITED (status : Nat) : Bool := status % 128 == 0

/-- `os.WIFSTOPPED`: the child was stopped (low byte `0x7f`). -/
def WIFSTOPPED (status : Nat) : Bool := status % 256 == 127

/-- `os.WIFCONTINUED`: the child was resumed (status `0xffff`). -/
def WIFCONTINUED (status : Nat) : Bool := status == 65535

/-- `os.WIFSIGNALED`: the child was terminated by a signal (termination signal
field nonzero and not the stop marker `0x7f`).  Glibc:
`((signed char)(((status & 0x7f) + 1) >> 1)) > 0`. -/
def WIFSIGNALED (status : Nat) : Bool :=
  !(status % 128 == 0) && !(status % 128 == 127)

/-- A notification the handler treats as a real child termination: the pid is
nonzero and the status reports neither a stop nor a continue.  This is the
guard of the first `if` in `_chld`, negated. -/
def trueTermination (pid : Pid) (status : Nat) : Bool :=
  !(WIFCONTINUED status || WIFSTOPPED status || pid == 0)

/-! ### Supervisor shared state and the SIGCHLD handler -/

/-- Python exceptions that the embedded code can raise. -/
inductive PyError where
  /-- `KeyError`: dictionary lookup of an absent key, as in `children[pid]`. -/
  | keyError
  /-- `TypeError`: e.g. calling a function with a required argument missing,
  or calling `None`. -/
  | typeError
deriving DecidableEq, Repr

/-- Log records emitted by the supervisor. -/
inductive LogRecord where
  /-- `log.warn("Subprocess %d exited, job %r queued for restart", pid, job)`. -/
  | subprocessExited (pid : Pid) (job : WorkerName)
  /-- `log.fatal("Got SIGINT, shutting down")`. -/
  | gotSigint
deriving DecidableEq, Repr

/-- The supervisor state shared between the main loop and the asynchronous
SIGCHLD handler: the restart queue `restarts` (FIFO: head is next to be
dequeued, `put` appends at the back) and the child table `children`
(a Python dict `pid -> worker name`, modelled as an association list with
first-match lookup; live pids are unique so at most one binding per key). -/
structure SupState where
  restarts : List WorkerName
  children : List (Pid × WorkerName)
deriving DecidableEq, Repr

/-- The body of the SIGCHLD handler `_chld`, applied to the `(pid, status)`
pair returned by `os.waitpid(-1, WNOHANG | WUNTRACED | WCONTINUED)`:

* if the status reports a continue or a stop, or the pid is `0` (nothing to
  reap), return without touching the state;
* else if the status reports a normal exit (`WIFEXITED`), look up
  `children[pid]` (an unchecked dict access: absent key raises `KeyError`),
  push the job onto the restart queue, log, and delete the child-table entry;
* any other status (a signal-killed child, `WIFSIGNALED`) matches no branch
  of the `if/elif` chain, so the handler falls through and does nothing. -/
def chld (s : SupState) (pid : Pid) (status : Nat) :
    Except PyError (SupState × List LogRecord) :=
  if WIFCONTINUED status || WIFSTOPPED status || pid == 0 then
    .ok (s, [])
  else if WIFEXITED status then
    match s.children.lookup pid with
    | none => .error .keyError
    | some job =>
        .ok ({ restarts := s.restarts ++ [job],
               children := s.children.filter fun c => c.1 != pid },
             [.subprocessExited pid job])
  else
    .ok (s, [])

end RunTopology

namespace RunTopology

/-- Claim C1, evidence of the divergence: a spawned worker with pid `7`
recorded in the child table is killed by SIGKILL, so `os.waitpid` reports
`(7, 9)` — a true termination with `WIFSIGNALED` — yet the handler performs
no re-enqueue, no child-table removal and emits no log record: the state is
returned unchanged.  The claim (and the code's own comment "When a child
dies, restart it") requires exactly one re-enqueue, one removal and one log
record for every true termination. -/
theorem chld_drops_signal_killed_child :
    trueTermination 7 9 = true ∧ WIFSIGNALED 9 = true ∧
    chld ⟨[], [(7, "w1")]⟩ 7 9 = .ok (⟨[], [(7, "w1")]⟩, []) := by
  refine ⟨rfl, rfl, rfl⟩

/-- Claim C10, counterexample: a true-termination notification whose status
reports death by signal (status `9`, SIGKILL) and whose pid `5` is absent
from the child table does NOT raise `KeyError`: the `WIFEXITED` branch is
not taken, the handler falls through, and the notification is ignored with
the state unchanged.  So the claim's "for every true termination
notification" is too broad: the unchecked lookup is only reached on
normal-exit statuses. -/
theorem chld_unknown_pid_signal_status_no_keyerror :
    trueTermination 5 9 = true ∧
    (SupState.mk [] []).children.lookup 5 = none ∧
    chld ⟨[], []⟩ 5 9 = .ok (⟨[], []⟩, []) ∧
    chld ⟨[], []⟩ 5 9 ≠ .error .keyError := by
  refine ⟨rfl, rfl, rfl, by simp [chld, WIFCONTINUED, WIFSTOPPED, WIFEXITED]⟩

/-- Claim C10, amended: for every termination notification reporting a
normal exit (`WIFEXITED`) with a nonzero pid absent from the child table,
the handler's unchecked dictionary lookup raises `KeyError` (and the state
is not modified, since the requeue is never reached). -/
theorem chld_unknown_pid_normal_exit_keyerror (s : SupState) (pid : Pid)
    (status : Nat) (hexit : WIFEXITED status = true) (hpid : pid ≠ 0)
    (habs : s.children.lookup pid = none) :
    chld s pid status = .error .keyError := by
  have hmod : status % 128 = 0 := by
    simpa [WIFEXITED] using hexit
  have hstop : WIFSTOPPED status = false := by
    simp only [WIFSTOPPED, beq_eq_false_iff_ne, ne_eq]
    intro h
    have : status % 128 = 127 % 128 := by
      conv_lhs => rw [← Nat.mod_mod_of_dvd status (by norm_num : (128:Nat) ∣ 256)]
      rw [h]
    simp [hmod] at this
  have hcont : WIFCONTINUED status = false := by
    simp only [WIFCONTINUED, beq_eq_false_iff_ne, ne_eq]
    intro h
    rw [h] at hmod
    norm_num at hmod
  have hpid0 : (pid == 0) = false := by
    simpa using hpid
  simp [chld, hstop, hcont, hpid0, hexit, habs]

/-- Witness for `chld_unknown_pid_normal_exit_keyerror`: status `0` is a
normal exit, pid `5` is nonzero and absent from the empty child table, and
the handler indeed raises `KeyError`. -/
theorem chld_unknown_pid_normal_exit_keyerror_witness :
    chld ⟨[], []⟩ 5 0 = .error .keyError :=
  chld_unknown_pid_normal_exit_keyerror ⟨[], []⟩ 5 0 rfl (by decide) rfl

/-! ### Worker bootstrap and the strategy registry

`WORKER_REGISTRY` is populated at module load by the `@worker("map")` and
`@worker("custom")` decorators, and is read-only afterwards.  The per-process
entry point `worker(opts, target_name)` reloads the configuration, resolves
the `WorkerDefinition` for its name, and dispatches
`WORKER_REGISTRY.get(target.get("type"))(event, **target)`.  When the type
tag is absent, `dict.get` returns `None` and calling `None` raises
`TypeError` — the failure class the specification names `ConfigurationError`
(unknown worker type / unresolvable target reference). -/

/-- The two strategies registered at module load. -/
inductive StrategyTag where
  | mapStrategy
  | customStrategy
deriving DecidableEq, Repr

/-- The module-level registry: `{"map": map_worker, "custom": custom_worker}`. -/
def WORKER_REGISTRY : List (String × StrategyTag) :=
  [("map", .mapStrategy), ("custom", .customStrategy)]

/-- `WORKER_REGISTRY.get(tag)`. -/
def registryGet (tag : String) : Option StrategyTag :=
  WORKER_REGISTRY.lookup tag

/-- A resolved topology entry: its `type` tag and `target` reference.  The
remaining keyword arguments are opaque to dispatch and are omitted here;
they are modelled where they matter (the `map` and `custom` strategies). -/
structure WorkerDefinition where
  typeTag : String
  target : String
deriving DecidableEq, Repr

/-- Errors that abort a single worker-boot attempt inside the spawned
process. -/
inductive BootError where
  /-- The spec's `ConfigurationError` class: unknown worker type or
  unresolvable name.  In the Python source the unknown-type case surfaces
  concretely as a `TypeError` from calling `None`. -/
  | configurationError
  /-- `_import` failure: unresolvable target reference. -/
  | importError
deriving DecidableEq, Repr

/-- The dispatch step of `worker(opts, target_name)`:
`WORKER_REGISTRY.get(type_tag)` followed by the call; an absent tag fails. -/
def dispatch (typeTag : String) : Except BootError StrategyTag :=
  match registryGet typeTag with
  | none => .error .configurationError
  | some strat => .ok strat

/-- The boot path of the process entry point `worker(opts, target_name)`:
resolve the worker definition for `target_name` out of the freshly loaded
configuration, then dispatch on its type tag.  On success it returns the
strategy that the process will run. -/
def bootWorker (cfg : String → Option WorkerDefinition) (name : String) :
    Except BootError StrategyTag :=
  match cfg name with
  | none => .error .configurationError
  | some d => dispatch d.typeTag

/-- The wait status the supervisor later observes for the spawned process:
an uncaught exception makes the Python child exit with code 1 (wait status
`1 << 8 = 256`), a boot that returns normally exits with code 0. -/
def childExitStatus (r : Except BootError StrategyTag) : Nat :=
  match r with
  | .error _ => 256
  | .ok _ => 0

/-- Claim C2: when a worker definition carries a type tag absent from the
strategy registry, the boot fails with the `ConfigurationError` class, and
that failure is fatal only to the single worker-boot attempt: it surfaces
as a normal-exit wait status of the spawned process (`WIFEXITED`), which
the supervisor's exit handler digests through the ordinary restart path
(an `.ok` transition that requeues the name — never a supervisor failure). -/
theorem unknown_type_tag_is_configuration_error
    (cfg : String → Option WorkerDefinition) (name : String)
    (d : WorkerDefinition) (hc : cfg name = some d)
    (hr : registryGet d.typeTag = none)
    (s : SupState) (pid : Pid) (job : WorkerName) (hpid : pid ≠ 0)
    (hl : s.children.lookup pid = some job) :
    bootWorker cfg name = .error .configurationError ∧
    WIFEXITED (childExitStatus (bootWorker cfg name)) = true ∧
    chld s pid (childExitStatus (bootWorker cfg name)) =
      .ok ({ restarts := s.restarts ++ [job],
             children := s.children.filter fun c => c.1 != pid },
           [.subprocessExited pid job]) := by
  have hboot : bootWorker cfg name = .error .configurationError := by
    simp [bootWorker, hc, dispatch, hr]
  have hpid0 : (pid == 0) = false := by simpa using hpid
  refine ⟨hboot, ?_, ?_⟩
  · rw [hboot]; rfl
  · rw [hboot]
    simp [chld, childExitStatus, WIFCONTINUED, WIFSTOPPED, WIFEXITED, hpid0, hl]

/-- Witness for `unknown_type_tag_is_configuration_error`: a topology whose
single entry `w1` has the unregistered type tag `bogus`; the spawned
process pid `3` is recorded in the child table. -/
theorem unknown_type_tag_is_configuration_error_witness :
    bootWorker (fun n => if n = "w1" then some ⟨"bogus", "m:f"⟩ else none)
        "w1" = .error .configurationError ∧
    WIFEXITED (childExitStatus
      (bootWorker (fun n => if n = "w1" then some ⟨"bogus", "m:f"⟩ else none)
        "w1")) = true ∧
    chld ⟨[], [(3, "w1")]⟩ 3 (childExitStatus
      (bootWorker (fun n => if n = "w1" then some ⟨"bogus", "m:f"⟩ else none)
        "w1")) =
      .ok (⟨[] ++ ["w1"], [(3, "w1")].filter fun c => c.1 != 3⟩,
           [.subprocessExited 3 "w1"]) :=
  unknown_type_tag_is_configuration_error
    (fun n => if n = "w1" then some ⟨"bogus", "m:f"⟩ else none) "w1"
    ⟨"bogus", "m:f"⟩ rfl rfl ⟨[], [(3, "w1")]⟩ 3 "w1" (by decide) rfl

/-! ### The SIGUSR1 reboot handler

```python
def reboot(sig, frame):
  # Kill off the workers
  os.kill(os.getpgid(), signal.SIGINT)
  # Reboot this process
  os.execv(__file__, sys.argv)
```

`os.getpgid` has one required positional parameter (`os.getpgid(pid)`), so
the call `os.getpgid()` raises `TypeError` before any signal is sent. -/

/-- Operating-system actions the reboot handler intends to perform. -/
inductive SysAction where
  /-- `os.kill(target, sig)`: signal a single process. -/
  | kill (target : Nat) (sig : Nat)
  /-- `os.execv(path, argv)`: replace the running image. -/
  | execv (path : String) (argv : List String)
deriving DecidableEq, Repr

/-- `signal.SIGINT`. -/
def SIGINT : Nat := 2

/-- Python's `os.getpgid`, whose single positional parameter `pid` is
required: `arg = none` models the call `os.getpgid()` with no argument,
which raises `TypeError` without making any system call; `some pid`
returns the process group of `pid` (supplied by the environment map
`pgidOf`). -/
def os_getpgid (pgidOf : Nat → Nat) (arg : Option Nat) : Except PyError Nat :=
  match arg with
  | none => .error .typeError
  | some pid => .ok (pgidOf pid)

/-- The SIGUSR1 handler `reboot`, returning the list of system actions it
performs.  The source calls `os.getpgid()` with no argument. -/
def reboot (pgidOf : Nat → Nat) (file : String) (argv : List String) :
    Except PyError (List SysAction) := do
  let pg ← os_getpgid pgidOf none
  pure [SysAction.kill pg SIGINT, SysAction.execv file argv]

/-- Claim C8, evidence of the code bug: for every environment, the reboot
handler raises `TypeError` at the `os.getpgid()` call — no stop signal is
ever broadcast and the supervisor image is never replaced, contrary to the
claimed broadcast-then-re-exec behaviour.  (Even past that slip, the source
uses `os.kill`, which signals one process, not `os.killpg`.) -/
theorem reboot_raises_type_error (pgidOf : Nat → Nat) (file : String)
    (argv : List String) :
    reboot pgidOf file argv = .error .typeError := rfl

/-! ### The `map` strategy

```python
@worker("map")
def map_worker(event, target, source, type=None, sleep=1, **kwargs):
  target = _import(target)
  while not event.is_set():
    item = source.get()
    if item is not None:
      with item as item_contents:
        target(item_contents, **kwargs)
    else:
      time.sleep(sleep)
```

The queue abstraction is non-blocking: `source.get()` yields `None` when
empty, otherwise a scoped item whose `with` block acquires the lease,
exposes the contents, releases on normal exit and negatively-acknowledges
on abnormal exit.  We model the successive results of `source.get()` as a
list `yields : List (Option α)` (the observed finite prefix of checkouts),
the shutdown flag as `event : Nat → Bool` giving the value of
`event.is_set()` at the i-th consultation, and the target as
`α → Except ε Unit` so a raised exception is an `.error`.  The run returns
the observable trace and the escaping exception, if any. -/

/-- One observable event of a `map_worker` run. -/
inductive MapEvent (α : Type) where
  /-- `event.is_set()` was consulted and returned `b`. -/
  | checkFlag (b : Bool)
  /-- `source.get()` returned `r` (`none` = empty queue). -/
  | checkout (r : Option α)
  /-- `with item` entered: the lease on `a` is acquired. -/
  | acquire (a : α)
  /-- `target(item_contents, **kwargs)` invoked on `a`. -/
  | invoke (a : α)
  /-- `with` block exited normally: the lease on `a` is released. -/
  | release (a : α)
  /-- `with` block exited abnormally: the lease on `a` is
  negatively-acknowledged. -/
  | nack (a : α)
  /-- `time.sleep(n)`. -/
  | sleepFor (n : Nat)
deriving DecidableEq, Repr

/-- The `map` strategy over the observed prefix `yields` of checkout
results, starting at flag-consultation index `i`.  `sleep` is the keyword
parameter, whose declared default in the source is `1`.  Returns the event
trace and `some e` when an exception `e` raised by `target` escapes the
strategy (terminating the run), `none` when the run completes the prefix
or exits because the flag was observed set. -/
def map_worker (event : Nat → Bool) (target : α → Except ε Unit)
    (sleep : Nat) : Nat → List (Option α) → List (MapEvent α) × Option ε
  | _, [] => ([], none)
  | i, y :: rest =>
    if event i then ([.checkFlag true], none)
    else
      match y with
      | none =>
          let r := map_worker event target sleep (i + 1) rest
          (.checkFlag false :: .checkout none :: .sleepFor sleep :: r.1, r.2)
      | some a =>
          match target a with
          | .ok _ =>
              let r := map_worker event target sleep (i + 1) rest
              (.checkFlag false :: .checkout (some a) :: .acquire a ::
                .invoke a :: .release a :: r.1, r.2)
          | .error e =>
              ([.checkFlag false, .checkout (some a), .acquire a, .invoke a,
                .nack a], some e)

/-- Modelled from the spec: the claimed shape of one outer iteration of the
map strategy — consult the flag first, then one non-blocking checkout; on
an item, acquire, invoke, release; on an empty queue, sleep `sleep` units. -/
def mapIterationSpec (sleep : Nat) : Option α → List (MapEvent α)
  | none => [.checkFlag false, .checkout none, .sleepFor sleep]
  | some a => [.checkFlag false, .checkout (some a), .acquire a, .invoke a,
               .release a]

/-- With the flag never set and a never-raising target, a `map_worker` run
is exactly the concatenation of the per-iteration blocks and no exception
escapes. -/
theorem map_worker_eq_flatMap_iterations (event : Nat → Bool)
    (target : α → Except ε Unit) (sleep : Nat)
    (hev : ∀ i, event i = false) (htgt : ∀ x, target x = .ok ()) :
    ∀ (i : Nat) (yields : List (Option α)),
      map_worker event target sleep i yields =
        (yields.flatMap (mapIterationSpec sleep), none) := by
  intro i yields
  induction yields generalizing i with
  | nil => rfl
  | cons y rest ih =>
      cases y with
      | none =>
          simp [map_worker, hev, mapIterationSpec, ih]
      | some a =>
          simp [map_worker, hev, htgt, mapIterationSpec, ih]

/-- Claim C3: with the shutdown flag unset throughout and a target that
returns normally, each outer iteration consults the flag, then performs one
non-blocking checkout; an item is acquired, handed to the target and its
lease released inside the scope, while an empty checkout is followed by a
sleep of `sleep` units; instantiated at the source's default `sleep = 1`
over a source yielding `[A, B, None, C]`, the target receives `A`, then
`B`, then — after exactly one empty-queue sleep — `C`, strictly in that
order. -/
theorem map_worker_in_order (A B C : α) (event : Nat → Bool)
    (target : α → Except ε Unit)
    (hev : ∀ i, event i = false) (htgt : ∀ x, target x = .ok ()) :
    (∀ (i : Nat) (yields : List (Option α)),
       map_worker event target 1 i yields =
         (yields.flatMap (mapIterationSpec 1), none)) ∧
    map_worker event target 1 0 [some A, some B, none, some C] =
      ([.checkFlag false, .checkout (some A), .acquire A, .invoke A,
        .release A,
        .checkFlag false, .checkout (some B), .acquire B, .invoke B,
        .release B,
        .checkFlag false, .checkout none, .sleepFor 1,
        .checkFlag false, .checkout (some C), .acquire C, .invoke C,
        .release C], none) := by
  have h := map_worker_eq_flatMap_iterations event target 1 hev htgt
  refine ⟨h, ?_⟩
  rw [h 0 [some A, some B, none, some C]]
  rfl

/-- Witness for `map_worker_in_order`: `A, B, C = 1, 2, 3`, a constantly
unset flag and an always-succeeding target. -/
theorem map_worker_in_order_witness :
    map_worker (fun _ => false)
        (fun (_ : Nat) => (Except.ok () : Except Unit Unit)) 1 0
        [some 1, some 2, none, some 3] =
      ([.checkFlag false, .checkout (some 1), .acquire 1, .invoke 1,
        .release 1,
        .checkFlag false, .checkout (some 2), .acquire 2, .invoke 2,
        .release 2,
        .checkFlag false, .checkout none, .sleepFor 1,
        .checkFlag false, .checkout (some 3), .acquire 3, .invoke 3,
        .release 3], none) :=
  (map_worker_in_order 1 2 3 (fun _ => false)
    (fun _ => (Except.ok () : Except Unit Unit))
    (fun _ => rfl) (fun _ => rfl)).2

/-- Claim C4: an exception raised by the target on item `B` is not caught
by the strategy — the run over `[A, B, None, C]` ends immediately with the
exception escaping (`some e`), the lease on `B` negatively-acknowledged,
and the only checkouts ever performed are those of `A` and `B`: `C` is
never dequeued in that process's lifetime. -/
theorem map_worker_exception_propagates (A B C : α) (event : Nat → Bool)
    (target : α → Except ε Unit) (e : ε)
    (hev : ∀ i, event i = false) (hA : target A = .ok ())
    (hB : target B = .error e) :
    map_worker event target 1 0 [some A, some B, none, some C] =
      ([.checkFlag false, .checkout (some A), .acquire A, .invoke A,
        .release A,
        .checkFlag false, .checkout (some B), .acquire B, .invoke B,
        .nack B], some e) ∧
    ∀ x, MapEvent.checkout (some x) ∈
        (map_worker event target 1 0 [some A, some B, none, some C]).1 →
      x = A ∨ x = B := by
  have htr : map_worker event target 1 0 [some A, some B, none, some C] =
      ([.checkFlag false, .checkout (some A), .acquire A, .invoke A,
        .release A,
        .checkFlag false, .checkout (some B), .acquire B, .invoke B,
        .nack B], some e) := by
    simp [map_worker, hev, hA, hB]
  refine ⟨htr, ?_⟩
  intro x hx
  rw [htr] at hx
  simp at hx
  tauto

/-- Witness for `map_worker_exception_propagates`: `A, B, C = 1, 2, 3` and
a target that fails exactly on `2`. -/
theorem map_worker_exception_propagates_witness :
    map_worker (fun _ => false)
        (fun (n : Nat) => if n == 2 then (Except.error () : Except Unit Unit)
                          else .ok ()) 1 0
        [some 1, some 2, none, some 3] =
      ([.checkFlag false, .checkout (some 1), .acquire 1, .invoke 1,
        .release 1,
        .checkFlag false, .checkout (some 2), .acquire 2, .invoke 2,
        .nack 2], some ()) :=
  (map_worker_exception_propagates 1 2 3 (fun _ => false)
    (fun n => if n == 2 then (Except.error () : Except Unit Unit) else .ok ())
    () (fun _ => rfl) (by rfl) (by rfl)).1

/-! ### The `custom` strategy

```python
@worker("custom")
def custom_worker(event, target, type=None, **kwargs):
  target = _import(target)
  target(event=event, **kwargs)
```
-/

/-- One invocation of a custom-strategy target, recording the arguments it
was called with: the keyword argument `event` (the process's shutdown
flag) and the remaining configured keyword arguments. -/
structure CustomCall (E K : Type) where
  event : E
  kwargs : K
deriving DecidableEq, Repr

/-- The `custom` strategy: resolve the target reference through the import
environment (`_import`; an unresolvable reference raises), then call it
exactly once with `event=event` plus all other keyword arguments, returning
when it returns.  The result records the list of calls made and the
target's return value. -/
def custom_worker (resolve : String → Option (E → K → ρ)) (target : String)
    (event : E) (kwargs : K) :
    Except BootError (List (CustomCall E K) × ρ) :=
  match resolve target with
  | none => .error .importError
  | some t => .ok ([⟨event, kwargs⟩], t event kwargs)

/-- Claim C5: whenever the target reference resolves, the custom strategy
invokes the resolved callable exactly once — the call list is the single
call carrying `event` (the shutdown flag) and the configured keyword
arguments — and the strategy returns the target's own return value,
imposing no loop or cancellation of its own. -/
theorem custom_worker_calls_target_once (resolve : String → Option (E → K → ρ))
    (target : String) (t : E → K → ρ) (event : E) (kwargs : K)
    (h : resolve target = some t) :
    custom_worker resolve target event kwargs =
      .ok ([⟨event, kwargs⟩], t event kwargs) := by
  simp [custom_worker, h]

/-- Witness for `custom_worker_calls_target_once`: an environment resolving
`"m:f"` to a concrete function, shutdown flag `false`, kwargs `5`. -/
theorem custom_worker_calls_target_once_witness :
    custom_worker
        (fun s => if s = "m:f" then some (fun (_ : Bool) (k : Nat) => k + 1)
                  else none)
        "m:f" false 5 = .ok ([⟨false, 5⟩], 6) :=
  custom_worker_calls_target_once
    (fun s => if s = "m:f" then some (fun (_ : Bool) (k : Nat) => k + 1)
              else none)
    "m:f" (fun _ k => k + 1) false 5 rfl

/-! ### The supervisor main loop

```python
event = mk_sigint_event()
while not event.is_set():
  # Restart all the dead children..
  while not event.is_set():
    try:
      worker_name = restarts.get_nowait()
    except Empty:
      break
    ps = Process(target=worker, args=(opts, worker_name))
    ps.start()
    children[ps.pid] = worker_name
  time.sleep(5)
```

The shutdown flag is modelled as `flag : Nat → Bool`, giving the value of
`event.is_set()` at its t-th consultation (the flag may be flipped
asynchronously between consultations; since `Event.set` is monotonic a
constant-`false` schedule means the flag stayed unset).  Spawned pids are
drawn from a fresh-pid counter `nextPid`. -/

/-- The supervisor's main-loop state: the restart queue, the child table,
and the next fresh pid the OS will hand out. -/
structure MainState where
  restarts : List WorkerName
  children : List (Pid × WorkerName)
  nextPid : Pid
deriving DecidableEq, Repr

/-- Observable actions of the main loop. -/
inductive SupEvent where
  /-- `Process(target=worker, args=(opts, name)).start()` assigned `pid`. -/
  | spawned (pid : Pid) (name : WorkerName)
  /-- `time.sleep(n)` at the bottom of the outer loop. -/
  | slept (n : Nat)
deriving DecidableEq, Repr

/-- Result of draining the restart queue: the state afterwards, the next
flag-consultation index, and the spawn events performed. -/
structure DrainResult where
  state : MainState
  time : Nat
  events : List SupEvent
deriving DecidableEq, Repr

/-- The inner loop: consult the flag; if set, stop spawning; otherwise
`restarts.get_nowait()` — on `Empty` break out, on a name spawn a process
running the worker bootstrap for it and record `pid -> name` in the child
table.  (When the queue is empty the flag is still consulted once before
`get_nowait` raises `Empty`; the resulting state is the same either way.) -/
def drainGo (flag : Nat → Bool) :
    List WorkerName → Nat → List (Pid × WorkerName) → Pid → DrainResult
  | [], t, c, p => ⟨⟨[], c, p⟩, t + 1, []⟩
  | n :: rest, t, c, p =>
    if flag t then ⟨⟨n :: rest, c, p⟩, t + 1, []⟩
    else
      let r := drainGo flag rest (t + 1) ((p, n) :: c) (p + 1)
      ⟨r.state, r.time, .spawned p n :: r.events⟩

/-- The outer loop, with `fuel` bounding the number of ticks observed:
consult the flag; if set, exit; otherwise drain the restart queue and sleep
5 seconds, then repeat. -/
def mainLoop (flag : Nat → Bool) :
    Nat → Nat → MainState → MainState × List SupEvent
  | 0, _, s => (s, [])
  | fuel + 1, t, s =>
    if flag t then (s, [])
    else
      let d := drainGo flag s.restarts (t + 1) s.children s.nextPid
      let r := mainLoop flag fuel d.time d.state
      (r.1, d.events ++ [SupEvent.slept 5] ++ r.2)

/-- The supervisor state after `main` seeds the restart queue: every name of
`config.get("workers")` is put on the queue in order, the child table is
empty, and no pid has been handed out yet. -/
def seedState (workers : List WorkerName) : MainState := ⟨workers, [], 1⟩

/-- The SIGINT handler installed by `mk_sigint_event`: it logs and sets the
event — returning the new flag value, the log records emitted, and the
system actions performed (none: no child is signalled or killed). -/
def sig_int_handler (_event : Bool) : Bool × List LogRecord × List SysAction :=
  (true, [.gotSigint], [])

/-- Claim C6: the stop handler only sets the flag — it performs no system
action against running children — and once the supervisor observes the flag
true, both loops stop spawning: the outer loop exits immediately no matter
how many ticks remain and the inner drain performs no spawn, so no spawn
event is ever emitted again, the child table gains no pid, and the names
still pending stay in the restart queue untouched. -/
theorem stop_halts_spawns_only (b : Bool) (flag : Nat → Bool)
    (fuel t : Nat) (s : MainState) (h : flag t = true) :
    sig_int_handler b = (true, [.gotSigint], []) ∧
    mainLoop flag fuel t s = (s, []) ∧
    (∀ (rs : List WorkerName) (c : List (Pid × WorkerName)) (p : Pid),
      (drainGo flag rs t c p).state = ⟨rs, c, p⟩ ∧
      (drainGo flag rs t c p).events = []) := by
  refine ⟨rfl, ?_, ?_⟩
  · cases fuel with
    | zero => rfl
    | succ k => simp [mainLoop, h]
  · intro rs c p
    cases rs with
    | nil => exact ⟨rfl, rfl⟩
    | cons n rest => constructor <;> simp [drainGo, h]

/-- Witness for `stop_halts_spawns_only`: a constantly-set flag, three
ticks of fuel, one pending name and one running child — nothing changes
and nothing is spawned. -/
theorem stop_halts_spawns_only_witness :
    sig_int_handler false = (true, [.gotSigint], []) ∧
    mainLoop (fun _ => true) 3 0 ⟨["w2"], [(1, "w1")], 2⟩ =
      (⟨["w2"], [(1, "w1")], 2⟩, []) ∧
    (drainGo (fun _ => true) ["w2"] 0 [(1, "w1")] 2).state =
      ⟨["w2"], [(1, "w1")], 2⟩ ∧
    (drainGo (fun _ => true) ["w2"] 0 [(1, "w1")] 2).events = [] :=
  ⟨(stop_halts_spawns_only false (fun _ => true) 3 0
      ⟨["w2"], [(1, "w1")], 2⟩ rfl).1,
   (stop_halts_spawns_only false (fun _ => true) 3 0
      ⟨["w2"], [(1, "w1")], 2⟩ rfl).2.1,
   ((stop_halts_spawns_only false (fun _ => true) 3 0
      ⟨["w2"], [(1, "w1")], 2⟩ rfl).2.2 ["w2"] [(1, "w1")] 2).1,
   ((stop_halts_spawns_only false (fun _ => true) 3 0
      ⟨["w2"], [(1, "w1")], 2⟩ rfl).2.2 ["w2"] [(1, "w1")] 2).2⟩

/-- Draining with the flag unset spawns every pending name: the queue ends
empty, each formerly pending name is recorded in the child table under some
pid with a matching spawn event, and the pre-existing child-table entries
are preserved. -/
theorem drainGo_spawns_all (flag : Nat → Bool) (hf : ∀ i, flag i = false) :
    ∀ (rs : List WorkerName) (t : Nat) (c : List (Pid × WorkerName)) (p : Pid),
      (drainGo flag rs t c p).state.restarts = [] ∧
      (∀ n, n ∈ rs → ∃ pid, (pid, n) ∈ (drainGo flag rs t c p).state.children ∧
        SupEvent.spawned pid n ∈ (drainGo flag rs t c p).events) ∧
      (∀ x, x ∈ c → x ∈ (drainGo flag rs t c p).state.children) := by
  intro rs
  induction rs with
  | nil =>
      intro t c p
      exact ⟨rfl, by simp, by intro x hx; simpa [drainGo] using hx⟩
  | cons n rest ih =>
      intro t c p
      have step : drainGo flag (n :: rest) t c p =
          ⟨(drainGo flag rest (t + 1) ((p, n) :: c) (p + 1)).state,
           (drainGo flag rest (t + 1) ((p, n) :: c) (p + 1)).time,
           .spawned p n ::
             (drainGo flag rest (t + 1) ((p, n) :: c) (p + 1)).events⟩ := by
        simp [drainGo, hf]
      obtain ⟨h1, h2, h3⟩ := ih (t + 1) ((p, n) :: c) (p + 1)
      refine ⟨by rw [step]; exact h1, ?_, ?_⟩
      · intro m hm
        rcases List.mem_cons.mp hm with hm | hm
        · subst hm
          have hmem : (p, m) ∈ (drainGo flag rest (t + 1) ((p, m) :: c)
              (p + 1)).state.children := h3 _ (List.mem_cons_self _ _)
          exact ⟨p, by rw [step]; exact hmem, by rw [step]; exact List.mem_cons_self _ _⟩
        · obtain ⟨pid, hc, he⟩ := h2 m hm
          exact ⟨pid, by rw [step]; exact hc, by rw [step]; exact List.mem_cons_of_mem _ he⟩
      · intro x hx
        have : x ∈ (p, n) :: c := List.mem_cons_of_mem _ hx
        rw [step]
        exact h3 _ this

/-- Claim C9: while the flag stays false, one main-loop tick non-blockingly
drains the whole restart queue — every pending name gets a process spawned
for it, with its pid recorded in the child table and the running children
kept — and the tick ends with the 5-second sleep; in particular, starting
from the state seeded with the initial worker list, every seeded name has a
process spawned for it during the first tick. -/
theorem tick_spawns_every_pending_name (flag : Nat → Bool)
    (hf : ∀ i, flag i = false) (t : Nat) (s : MainState) :
    (mainLoop flag 1 t s).1.restarts = [] ∧
    (∀ n, n ∈ s.restarts →
      ∃ pid, (pid, n) ∈ (mainLoop flag 1 t s).1.children ∧
        SupEvent.spawned pid n ∈ (mainLoop flag 1 t s).2) ∧
    (∀ x, x ∈ s.children → x ∈ (mainLoop flag 1 t s).1.children) ∧
    (∃ evs, (mainLoop flag 1 t s).2 = evs ++ [SupEvent.slept 5]) ∧
    (∀ workers : List WorkerName, ∀ n, n ∈ workers →
      ∃ pid, SupEvent.spawned pid n ∈
        (mainLoop flag 1 t (seedState workers)).2) := by
  have tick : ∀ (u : Nat) (st : MainState), mainLoop flag 1 u st =
      ((drainGo flag st.restarts (u + 1) st.children st.nextPid).state,
       (drainGo flag st.restarts (u + 1) st.children st.nextPid).events ++
         [SupEvent.slept 5]) := by
    intro u st
    simp [mainLoop, hf]
  obtain ⟨h1, h2, h3⟩ :=
    drainGo_spawns_all flag hf s.restarts (t + 1) s.children s.nextPid
  refine ⟨by rw [tick]; exact h1, ?_, ?_, ?_, ?_⟩
  · intro n hn
    obtain ⟨pid, hc, he⟩ := h2 n hn
    exact ⟨pid, by rw [tick]; exact hc,
      by rw [tick]; exact List.mem_append_left _ he⟩
  · intro x hx
    rw [tick]
    exact h3 x hx
  · exact ⟨_, by rw [tick]⟩
  · intro workers n hn
    obtain ⟨_, h2w, _⟩ :=
      drainGo_spawns_all flag hf workers (t + 1) [] 1
    obtain ⟨pid, _, he⟩ := h2w n hn
    exact ⟨pid, by rw [tick]; exact List.mem_append_left _ he⟩

/-- Witness for `tick_spawns_every_pending_name`: the seeded two-worker
topology, flag never set — both names are spawned in the first tick. -/
theorem tick_spawns_every_pending_name_witness :
    (mainLoop (fun _ => false) 1 0 (seedState ["w1", "w2"])).1.restarts = [] ∧
    (∃ pid, SupEvent.spawned pid "w1" ∈
      (mainLoop (fun _ => false) 1 0 (seedState ["w1", "w2"])).2) ∧
    (∃ pid, SupEvent.spawned pid "w2" ∈
      (mainLoop (fun _ => false) 1 0 (seedState ["w1", "w2"])).2) :=
  ⟨(tick_spawns_every_pending_name (fun _ => false) (fun _ => rfl) 0
      (seedState ["w1", "w2"])).1,
   (tick_spawns_every_pending_name (fun _ => false) (fun _ => rfl) 0
      (seedState ["w1", "w2"])).2.2.2.2 ["w1", "w2"] "w1" (by simp),
   (tick_spawns_every_pending_name (fun _ => false) (fun _ => rfl) 0
      (seedState ["w1", "w2"])).2.2.2.2 ["w1", "w2"] "w2" (by simp)⟩

/-! ### PENDING / RUNNING and the interleaving of spawn loop and handler

A WorkerName is PENDING when it sits in the restart queue and RUNNING when
some pid maps to it in the child table.  The spawn-loop body and the
SIGCHLD handler each consist of two separate mutations of the shared state:

* spawn body: `worker_name = restarts.get_nowait()` (line 270), then —
  after `Process(...).start()` — `children[ps.pid] = worker_name`
  (line 277);
* handler, normal-exit branch: `job = children[pid]; restarts.put(job)`
  (lines 254-255), then `del children[pid]` (line 257).

Signal delivery can interleave between the two halves, so we model each
half as one atomic micro-operation (parameterised by the data it moves) and
a run as any sequence of applicable micro-operations. -/

/-- `n` is PENDING: it is in the restart queue. -/
def pending (n : WorkerName) (s : SupState) : Prop := n ∈ s.restarts

/-- `n` is RUNNING: some pid is mapped to it in the child table. -/
def running (n : WorkerName) (s : SupState) : Prop :=
  n ∈ s.children.map Prod.snd

instance (n : WorkerName) (s : SupState) : Decidable (pending n s) :=
  inferInstanceAs (Decidable (n ∈ s.restarts))

instance (n : WorkerName) (s : SupState) : Decidable (running n s) :=
  inferInstanceAs (Decidable (n ∈ s.children.map Prod.snd))

/-- One instruction-level mutation of the shared supervisor state. -/
inductive MicroOp where
  /-- `worker_name = restarts.get_nowait()` dequeuing `n` (spawn body,
  first half; the name now lives only in a local variable). -/
  | dequeue (n : WorkerName)
  /-- `children[ps.pid] = worker_name` (spawn body, second half). -/
  | record (pid : Pid) (n : WorkerName)
  /-- `job = children[pid]; restarts.put(job)` (handler, first half). -/
  | requeue (pid : Pid)
  /-- `del children[pid]` (handler, second half). -/
  | remove (pid : Pid)
deriving DecidableEq, Repr

/-- The effect of one micro-operation; `none` when it is not applicable in
the given state. -/
def microStep : MicroOp → SupState → Option SupState
  | .dequeue n, s =>
    match s.restarts with
    | [] => none
    | m :: rest => if m = n then some ⟨rest, s.children⟩ else none
  | .record pid n, s =>
    if s.children.lookup pid = none then
      some ⟨s.restarts, (pid, n) :: s.children⟩
    else none
  | .requeue pid, s =>
    match s.children.lookup pid with
    | none => none
    | some job => some ⟨s.restarts ++ [job], s.children⟩
  | .remove pid, s =>
    some ⟨s.restarts, s.children.filter fun c => c.1 != pid⟩

/-- Run a sequence of micro-operations. -/
def microRun : List MicroOp → SupState → Option SupState
  | [], s => some s
  | op :: ops, s => (microStep op s).bind (microRun ops)

/-- Claim C7, counterexample: seed the queue with `w1`, spawn it as pid `1`
(dequeue + record), then let its exit notification interleave.  After the
handler's first half (`restarts.put(job)`, before `del children[pid]`) the
name `w1` is simultaneously PENDING and RUNNING; moreover after the spawn
body's first half (dequeue, before record) it was in neither state.  So
"each WorkerName is in exactly one of PENDING, RUNNING at any instant,
across every interleaving" fails at instruction granularity. -/
theorem name_pending_and_running_mid_handler :
    microRun [.dequeue "w1", .record 1 "w1", .requeue 1] ⟨["w1"], []⟩ =
      some ⟨["w1"], [(1, "w1")]⟩ ∧
    pending "w1" ⟨["w1"], [(1, "w1")]⟩ ∧
    running "w1" ⟨["w1"], [(1, "w1")]⟩ ∧
    microRun [.dequeue "w1"] ⟨["w1"], []⟩ = some ⟨[], []⟩ ∧
    ¬ pending "w1" ⟨[], []⟩ ∧
    ¬ running "w1" ⟨[], []⟩ := by
  refine ⟨rfl, by decide, by decide, rfl, by decide, by decide⟩

/-! For the amended claim we take the granularity the specification's state
machine describes: one complete spawn-loop body and one complete
normal-exit handler execution, each as a single atomic transition. -/

/-- A complete atomic transition of the supervisor over the shared state. -/
inductive SupOp where
  /-- One full spawn-loop body: dequeue the next pending name and record it
  under the (fresh) pid the OS assigned to the new process. -/
  | spawnOne (pid : Pid)
  /-- One full normal-exit handler execution for the reaped `pid`. -/
  | exitNotify (pid : Pid)
deriving DecidableEq, Repr

/-- The effect of one complete transition; `none` when not applicable
(empty queue, pid already live, or pid unknown). -/
def supStep : SupOp → SupState → Option SupState
  | .spawnOne pid, s =>
    match s.restarts with
    | [] => none
    | n :: rest =>
      if s.children.lookup pid = none then
        some ⟨rest, (pid, n) :: s.children⟩
      else none
  | .exitNotify pid, s =>
    match s.children.lookup pid with
    | none => none
    | some job =>
      some ⟨s.restarts ++ [job], s.children.filter fun c => c.1 != pid⟩

/-- Run a sequence of complete transitions. -/
def supRun : List SupOp → SupState → Option SupState
  | [], s => some s
  | op :: ops, s => (supStep op s).bind (supRun ops)

/-- Occurrences of the name `n` across both containers: in the restart
queue plus among the child-table values. -/
def nameCount (n : WorkerName) (s : SupState) : Nat :=
  s.restarts.count n + (s.children.map Prod.snd).count n

/-- The supervisor's representation invariant relative to the seeded name
list: every name occurs across queue and table exactly as often as it was
seeded, and the child-table pids are distinct (live pids are unique). -/
def SupInv (names : List WorkerName) (s : SupState) : Prop :=
  (∀ n, nameCount n s = names.count n) ∧ (s.children.map Prod.fst).Nodup

/-- An absent key of the association list is not among its keys. -/
theorem lookup_eq_none_not_key (pid : Pid) :
    ∀ c : List (Pid × WorkerName), c.lookup pid = none →
      pid ∉ c.map Prod.fst := by
  intro c
  induction c with
  | nil => intro _ h; simp at h
  | cons kv rest ih =>
      obtain ⟨k, v⟩ := kv
      intro h hmem
      cases hk : pid == k with
      | true =>
          simp [List.lookup, hk] at h
      | false =>
          simp only [List.lookup, hk] at h
          rcases List.mem_cons.mp hmem with heq | hmem2
          · exact absurd (by simpa using heq) (by simpa using hk)
          · exact ih h hmem2

/-- Deleting the (unique) binding of `pid` removes exactly one occurrence
of its value `job` from the child-table values. -/
theorem count_filter_remove_key (pid : Pid) (job m : WorkerName) :
    ∀ c : List (Pid × WorkerName), (c.map Prod.fst).Nodup →
      c.lookup pid = some job →
      ((c.filter fun x => x.1 != pid).map Prod.snd).count m +
        (if job == m then 1 else 0) = (c.map Prod.snd).count m := by
  intro c
  induction c with
  | nil => intro _ h; simp [List.lookup] at h
  | cons kv rest ih =>
      obtain ⟨k, v⟩ := kv
      intro hnd hl
      have hnd2 : (rest.map Prod.fst).Nodup :=
        (List.nodup_cons.mp (by simpa using hnd)).2
      have hknot : k ∉ rest.map Prod.fst :=
        (List.nodup_cons.mp (by simpa using hnd)).1
      cases hk : pid == k with
      | true =>
          have hpk : pid = k := by simpa using hk
          have hv : v = job := by
            simp [List.lookup, hk] at hl
            exact hl
          have hdrop : ((k, v).1 != pid) = false := by
            simp [hpk]
          have hrest : rest.filter (fun x => x.1 != pid) = rest := by
            apply List.filter_eq_self.mpr
            intro a ha
            have : a.1 ≠ pid := by
              intro hap
              exact hknot (by
                rw [← hpk, ← hap]
                exact List.mem_map_of_mem Prod.fst ha)
            simpa using this
          subst hv hpk
          simp [List.filter_cons, hdrop, hrest, List.count_cons]
      | false =>
          have hpk : pid ≠ k := by simpa using hk
          have hkeep : ((k, v).1 != pid) = true := by
            simpa using hpk.symm
          have hl2 : rest.lookup pid = some job := by
            simpa [List.lookup, hk] using hl
          have ihh := ih hnd2 hl2
          simp only [List.filter_cons, hkeep, if_true, List.map_cons,
            List.count_cons]
          omega

/-- Every applicable complete transition preserves the invariant. -/
theorem supStep_preserves (names : List WorkerName) (op : SupOp)
    (s s2 : SupState) (hinv : SupInv names s) (h : supStep op s = some s2) :
    SupInv names s2 := by
  obtain ⟨hcount, hnd⟩ := hinv
  cases op with
  | spawnOne pid =>
      cases hr : s.restarts with
      | nil => simp [supStep, hr] at h
      | cons n rest =>
          by_cases hl : s.children.lookup pid = none
          · simp only [supStep, hr, hl, if_true] at h
            obtain rfl : SupState.mk rest ((pid, n) :: s.children) = s2 :=
              Option.some_injective _ h
            constructor
            · intro m
              have := hcount m
              simp only [nameCount, hr, List.count_cons, List.map_cons] at *
              omega
            · simp only [List.map_cons]
              exact List.nodup_cons.mpr ⟨lookup_eq_none_not_key pid _ hl, hnd⟩
          · simp [supStep, hr, hl] at h
  | exitNotify pid =>
      cases hl : s.children.lookup pid with
      | none => simp [supStep, hl] at h
      | some job =>
          simp only [supStep, hl] at h
          obtain rfl : SupState.mk (s.restarts ++ [job])
              (s.children.filter fun c => c.1 != pid) = s2 :=
            Option.some_injective _ h
          constructor
          · intro m
            have hrem := count_filter_remove_key pid job m s.children hnd hl
            have := hcount m
            simp only [nameCount, List.count_append, List.count_cons,
              List.count_nil] at *
            omega
          · exact hnd.sublist (List.Sublist.map _ (List.filter_sublist _))

/-- Any run of complete transitions preserves the invariant. -/
theorem supRun_preserves (names : List WorkerName) :
    ∀ (ops : List SupOp) (s s2 : SupState), SupInv names s →
      supRun ops s = some s2 → SupInv names s2 := by
  intro ops
  induction ops with
  | nil =>
      intro s s2 hinv h
      obtain rfl : s = s2 := Option.some_injective _ h
      exact hinv
  | cons op rest ih =>
      intro s s2 hinv h
      cases hst : supStep op s with
      | none => simp [supRun, hst] at h
      | some s1 =>
          simp only [supRun, hst, Option.bind_some] at h
          exact ih s1 s2 (supStep_preserves names op s s1 hinv hst) h

/-- Claim C7, amended: at every boundary between complete executions of the
spawn-loop body and of the normal-exit handler — any interleaving of such
atomic transitions, starting from the freshly seeded state — a WorkerName
seeded exactly once is in exactly one of the states PENDING (in the restart
queue) or RUNNING (a pid mapped to it in the child table).  At instants
*inside* those two code blocks the invariant can be violated (see the
counterexample), which is the atomicity caveat the specification itself
flags. -/
theorem seeded_name_pending_xor_running (names : List WorkerName)
    (ops : List SupOp) (s : SupState)
    (h : supRun ops ⟨names, []⟩ = some s) (n : WorkerName)
    (hn : names.count n = 1) :
    (pending n s ∧ ¬ running n s) ∨ (running n s ∧ ¬ pending n s) := by
  have hseed : SupInv names ⟨names, []⟩ := by
    constructor
    · intro m; simp [nameCount]
    · simp
  have hinv := supRun_preserves names ops ⟨names, []⟩ s hseed h
  have hcount : s.restarts.count n + (s.children.map Prod.snd).count n = 1 := by
    have := hinv.1 n
    simpa [nameCount, hn] using this
  by_cases hp : s.restarts.count n = 0
  · right
    have hr : (s.children.map Prod.snd).count n = 1 := by omega
    constructor
    · exact List.count_pos_iff.mp (by omega)
    · intro hmem
      have : s.restarts.count n ≠ 0 := by
        have := List.count_pos_iff.mpr hmem
        omega
      exact this hp
  · left
    have hr : (s.children.map Prod.snd).count n = 0 := by omega
    constructor
    · exact List.count_pos_iff.mp (by omega)
    · intro hmem
      have := List.count_pos_iff.mpr hmem
      omega

/-- Witness for `seeded_name_pending_xor_running`: seed `[w1, w2]`, spawn
the head as pid `1`, then process its exit notification — `w1` ends up
PENDING again (and not RUNNING). -/
theorem seeded_name_pending_xor_running_witness :
    (pending "w1" ⟨["w2", "w1"], []⟩ ∧ ¬ running "w1" ⟨["w2", "w1"], []⟩) ∨
    (running "w1" ⟨["w2", "w1"], []⟩ ∧ ¬ pending "w1" ⟨["w2", "w1"], []⟩) :=
  seeded_name_pending_xor_running ["w1", "w2"]
    [SupOp.spawnOne 1, SupOp.exitNotify 1] ⟨["w2", "w1"], []⟩ rfl "w1"
    (by decide)

end RunTopology
